import Mathlib

/-!
Shallow embedding of the Synthetic Acoustic Mixture Engine
(scripts/generate_synthetic_noncry.py and scripts/create_synthetic_soundbank.py)
together with the control-flow skeletons of the batch loops of the
standardization scripts.  Waveform samples are modelled as real numbers
(`List ℝ`); numpy float arithmetic is modelled by exact real arithmetic.
-/

/-- Fixed sample rate, `SR = 16000` in both generation scripts. -/
def SR : ℕ := 16000

/-- Number of samples for a duration in seconds: `int(SR * duration_s)`.
Python `int()` truncates toward zero; for non-negative durations this is the
floor.  Used by every generator via `np.linspace(0, d, int(SR*d), endpoint=False)`. -/
noncomputable def nSamples (d : ℝ) : ℕ :=
  (Int.floor ((SR : ℝ) * d)).toNat

/-- Mean-square power of a buffer: `np.mean(x ** 2)` (sum of squares over length). -/
noncomputable def meanSq (xs : List ℝ) : ℝ :=
  (xs.map (fun x => x ^ 2)).sum / (xs.length : ℝ)

/-- Peak absolute amplitude of a buffer: `np.max(np.abs(x))` (0 for the empty buffer). -/
def peakAbs (xs : List ℝ) : ℝ :=
  (xs.map (fun x => |x|)).foldr max 0

/-- Gain factor of the compositor, from `add_event_at_time` (lines 77-80):
`scale = sqrt(signal_power / event_power) * 10 ** (snr_db / 20)` when both
powers exceed `1e-10`, else `scale = 1.0`. -/
noncomputable def gainScale (signal_power event_power snr_db : ℝ) : ℝ :=
  if 1e-10 < event_power ∧ 1e-10 < signal_power then
    Real.sqrt (signal_power / event_power) * (10 : ℝ) ^ (snr_db / 20)
  else
    1

/-- Overlap length of an event placed at `start_idx` into `signal`:
`end_idx - start_idx` with `end_idx = min(start_idx + len(event), len(signal))`.
Natural subtraction yields 0 exactly when Python's signed value is `<= 0`
(for a non-negative start index). -/
def overlapLen (signal event : List ℝ) (start_idx : ℕ) : ℕ :=
  min (start_idx + event.length) signal.length - start_idx

/-- Pointwise addition of a patch onto the front of a buffer, keeping the
untouched tail: the semantics of the numpy slice assignment
`signal[start:end] += patch` restricted to the sliced region. -/
def overlayFrom : List ℝ → List ℝ → List ℝ
  | s, [] => s
  | [], _ :: _ => []
  | a :: s, p :: ps => (a + p) :: overlayFrom s ps

/-- Numpy slice assignment `signal[start : start + patch.length] += patch`:
samples before `start` and from `start + patch.length` on are untouched. -/
def overlayAdd (signal patch : List ℝ) (start : ℕ) : List ℝ :=
  signal.take start ++ overlayFrom (signal.drop start) patch

/-- Event compositor `add_event_at_time(signal, event, start_time_s, snr_db)`
from generate_synthetic_noncry.py (lines 64-83), with the sample index
`start_idx = int(start_time_s * SR)` taken as the (non-negative) argument.
If the overlap is empty the buffer is returned unchanged; otherwise the event
is cut to the overlap, scaled by `gainScale`, and added in place. -/
noncomputable def add_event_at_time (signal event : List ℝ) (start_idx : ℕ) (snr_db : ℝ) :
    List ℝ :=
  let event_len := overlapLen signal event start_idx
  if event_len = 0 then signal
  else
    let signal_power := meanSq ((signal.drop start_idx).take event_len)
    let event_power := meanSq (event.take event_len)
    let scale := gainScale signal_power event_power snr_db
    overlayAdd signal ((event.take event_len).map (fun x => x * scale)) start_idx

/-- Compositor entry point taking the onset in seconds, as in the source:
`start_idx = int(start_time_s * SR)`. -/
noncomputable def add_event_at_time_s (signal event : List ℝ) (start_time_s snr_db : ℝ) :
    List ℝ :=
  add_event_at_time signal event (Int.toNat (Int.floor (start_time_s * (SR : ℝ)))) snr_db

/-- Peak normalization from generate_synthetic_noncry.py (lines 85-90):
rescale to peak `max_amp` (default 0.9) when the peak exceeds `1e-10`,
otherwise return the buffer unchanged. -/
noncomputable def normalize_gen (x : List ℝ) (max_amp : ℝ := 0.9) : List ℝ :=
  let peak := peakAbs x
  if 1e-10 < peak then x.map (fun a => a / peak * max_amp) else x

/-- Peak normalization from create_synthetic_soundbank.py (lines 19-23):
return the buffer unchanged when the peak is strictly below `1e-9`,
otherwise rescale to peak 0.9. -/
noncomputable def normalize_sb (x : List ℝ) : List ℝ :=
  let m := peakAbs x
  if m < 1e-9 then x else x.map (fun a => a / m * 0.9)

/-- RandomStream state: the numpy global PRNG after `np.random.seed(seed)`,
modelled as an infinite tape of real draws with a current position.  Equal
seeds give equal tapes; the internals of the external PRNG are opaque to the
repository, so the tape is abstract. -/
structure Rng where
  tape : ℕ → ℝ
  pos : ℕ

/-- Draw one value (`np.random.rand()` / one `randn` draw) and advance. -/
def Rng.next (g : Rng) : ℝ × Rng :=
  (g.tape g.pos, ⟨g.tape, g.pos + 1⟩)

/-- Draw `n` values (`np.random.randn(n)`) and advance by `n`. -/
def Rng.nextn (g : Rng) (n : ℕ) : List ℝ × Rng :=
  ((List.range n).map (fun i => g.tape (g.pos + i)), ⟨g.tape, g.pos + n⟩)

/-- Integer draw `np.random.randint(lo, hi)` (uniform on `[lo, hi)`), modelled
as one tape draw mapped into the interval. -/
noncomputable def Rng.randint (g : Rng) (lo hi : ℤ) : ℤ × Rng :=
  let (u, g1) := g.next
  (lo + Int.floor (u * ((hi - lo : ℤ) : ℝ)), g1)

/-- Background generator `gen_background(duration_s)` from
generate_synthetic_noncry.py (lines 15-30): low-frequency hum at a drawn
frequency, slow amplitude modulation at a drawn rate, plus broadband noise.
`t_i = d * i / n` is `np.linspace(0, d, n, endpoint=False)`. -/
noncomputable def gen_background (duration_s : ℝ) (g : Rng) : List ℝ × Rng :=
  let n := nSamples duration_s
  let (u1, g1) := g.next
  let hum_freq := 60 + 80 * u1
  let (u2, g2) := g1.next
  let mod_freq := 0.1 + 0.3 * u2
  let (noise, g3) := g2.nextn n
  (List.zipWith
    (fun (i : ℕ) (z : ℝ) =>
      let t := duration_s * (i : ℝ) / (n : ℝ)
      (0.2 * Real.sin (2 * Real.pi * hum_freq * t)) *
        (0.6 + 0.4 * Real.sin (2 * Real.pi * mod_freq * t)) + 0.03 * z)
    (List.range n) noise, g3)

/-- Beep generator `gen_beep(duration_s)` from generate_synthetic_noncry.py
(lines 32-37): sinusoid at a drawn frequency with linear ~10 ms attack and
exponential decay. -/
noncomputable def gen_beep (duration_s : ℝ) (g : Rng) : List ℝ × Rng :=
  let n := nSamples duration_s
  let (u, g1) := g.next
  let freq := 600 + 1000 * u
  ((List.range n).map
    (fun (i : ℕ) =>
      let t := duration_s * (i : ℝ) / (n : ℝ)
      Real.sin (2 * Real.pi * freq * t) *
        (min 1 (t / 0.01) * Real.exp (-4 * t / duration_s)) * 0.5), g1)

/-- Fixed click length `int(0.03 * SR)`; `0.03 * 16000` rounds to `480.0`
in double precision, so the Python value is 480. -/
def clickLen : ℕ := 480

/-- Click generator `gen_click()` from generate_synthetic_noncry.py
(lines 39-46): unit impulse plus noise tail under an exponential decay
`np.exp(-np.linspace(0, 8, length))` (endpoint included, step `8/(length-1)`). -/
noncomputable def gen_click (g : Rng) : List ℝ × Rng :=
  let (noise, g1) := g.nextn clickLen
  (List.zipWith
    (fun (i : ℕ) (z : ℝ) =>
      let x : ℝ := if i = 0 then 1 else 0
      let decay := Real.exp (-(8 * (i : ℝ) / ((clickLen : ℝ) - 1)))
      (x + 0.2 * z) * decay * 0.3)
    (List.range clickLen) noise, g1)

/-- Whoosh generator `gen_whoosh(duration_s)` from
generate_synthetic_noncry.py (lines 48-55): differenced white noise
(`hp = concat([[0], diff(noise)])`) under a half-sine envelope. -/
noncomputable def gen_whoosh (duration_s : ℝ) (g : Rng) : List ℝ × Rng :=
  let n := nSamples duration_s
  let (noise, g1) := g.nextn n
  let hp := 0 :: List.zipWith (fun a b => a - b) (noise.drop 1) noise
  (List.zipWith
    (fun (h : ℝ) (i : ℕ) =>
      let t := duration_s * (i : ℝ) / (n : ℝ)
      h * Real.sin (Real.pi * t / duration_s) * 0.4)
    hp (List.range n), g1)

/-- Knock generator `gen_knock(duration_s)` from generate_synthetic_noncry.py
(lines 57-62): low-frequency sinusoid at a drawn frequency with fast
exponential decay. -/
noncomputable def gen_knock (duration_s : ℝ) (g : Rng) : List ℝ × Rng :=
  let n := nSamples duration_s
  let (u, g1) := g.next
  let freq := 80 + 120 * u
  ((List.range n).map
    (fun (i : ℕ) =>
      let t := duration_s * (i : ℝ) / (n : ℝ)
      Real.sin (2 * Real.pi * freq * t) * Real.exp (-10 * t / duration_s) * 0.6), g1)

/-- One event draw of the orchestrator loop (generate_mixture, lines 106-114):
`np.random.choice([gen_beep, gen_click, gen_whoosh, gen_knock])` (one draw,
index 0-3), then for every type except click a random duration
`0.3 + 2.0 * rand()`. -/
noncomputable def drawEvent (g : Rng) : List ℝ × Rng :=
  let (u, g1) := g.next
  let idx := min (Int.toNat (Int.floor (u * 4))) 3
  if idx = 1 then gen_click g1
  else
    let (ud, g2) := g1.next
    let event_dur := 0.3 + 2.0 * ud
    if idx = 0 then gen_beep event_dur g2
    else if idx = 2 then gen_whoosh event_dur g2
    else gen_knock event_dur g2

/-- One iteration of the orchestrator event loop (generate_mixture, lines
105-121): draw an event, compute `max_start = duration - len(event)/SR`, and
only when `max_start > 0` draw onset and SNR and invoke the compositor. -/
noncomputable def eventStep (duration : ℝ) : List ℝ × Rng → List ℝ × Rng
  | (mix, g) =>
    let (event, g2) := drawEvent g
    let max_start := duration - (event.length : ℝ) / (SR : ℝ)
    if 0 < max_start then
      let (u1, g3) := g2.next
      let start_time := max_start * u1
      let (u2, g4) := g3.next
      let snr := 5 + 15 * u2
      (add_event_at_time_s mix event start_time snr, g4)
    else (mix, g2)

/-- The orchestrator's `for _ in range(n_events)` loop, iterating
`eventStep` in order. -/
noncomputable def eventsLoop (duration : ℝ) : ℕ → List ℝ × Rng → List ℝ × Rng
  | 0, s => s
  | n + 1, s => eventsLoop duration n (eventStep duration s)

/-- Mixture orchestrator `generate_mixture(duration, n_events)` (lines
92-123): background, then `n_events` event placements (drawn from
`randint(1, 5)` when not supplied), then peak normalization. -/
noncomputable def generate_mixture (duration : ℝ) (n_events? : Option ℕ) (g : Rng) :
    List ℝ × Rng :=
  let (mix, g1) := gen_background duration g
  let (n_events, g2) :=
    match n_events? with
    | some k => (k, g1)
    | none =>
      let (k, g') := g1.randint 1 5
      (k.toNat, g')
  let (mix', g3) := eventsLoop duration n_events (mix, g2)
  (normalize_gen mix' 0.9, g3)

/-- One iteration of the batch driver loop (main, lines 149-154):
`n_events = randint(min_events, max_events + 1)` then one mixture. -/
noncomputable def batchStep (duration : ℝ) (min_events max_events : ℕ) (g : Rng) :
    List ℝ × Rng :=
  let (k, g1) := g.randint (min_events : ℤ) ((max_events : ℤ) + 1)
  generate_mixture duration (some k.toNat) g1

/-- Batch driver `main` (lines 140-154) as the sequence of produced buffers:
seed the stream, then produce `num` mixtures in order, threading the single
random stream through every draw. -/
noncomputable def mainOutputs (duration : ℝ) (min_events max_events : ℕ) :
    ℕ → Rng → List (List ℝ)
  | 0, _ => []
  | n + 1, g =>
    let (buf, g1) := batchStep duration min_events max_events g
    buf :: mainOutputs duration min_events max_events n g1

/-- Soundbank beep `gen_beep(duration_s, freq)` from
create_synthetic_soundbank.py (lines 35-39): enveloped sinusoid, then
`normalize`. -/
noncomputable def sb_gen_beep (duration_s freq : ℝ) : List ℝ :=
  let n := nSamples duration_s
  normalize_sb
    ((List.range n).map
      (fun (i : ℕ) =>
        let t := duration_s * (i : ℝ) / (n : ℝ)
        Real.sin (2 * Real.pi * freq * t) *
          (min 1 (t / 0.01) * Real.exp (-3 * t / duration_s))))

/-- Soundbank chime `gen_chime(duration_s)` from create_synthetic_soundbank.py
(lines 51-55): sum of three decaying sinusoids (C major triad), then
`normalize`. -/
noncomputable def sb_gen_chime (duration_s : ℝ) : List ℝ :=
  let n := nSamples duration_s
  normalize_sb
    ((List.range n).map
      (fun (i : ℕ) =>
        let t := duration_s * (i : ℝ) / (n : ℝ)
        (([523.25, 659.25, 783.99] : List ℝ).map
          (fun f => Real.sin (2 * Real.pi * f * t) * Real.exp (-3 * t / duration_s))).sum))

/-- Control-flow skeleton of the batch driver loop of
generate_synthetic_noncry.py `main` (lines 149-154).  The loop body generates
one mixture and writes it; there is no exception handler, so in the exception
monad a failing write aborts the remaining iterations.  `write i` is the
abstracted fallible file write for index `i`; the result collects the indices
written in order, or the first error. -/
def coreBatchLoop (write : ℕ → Except String Unit) : ℕ → ℕ → Except String (List ℕ)
  | _, 0 => .ok []
  | i, n + 1 =>
    match write i with
    | .error e => .error e
    | .ok _ =>
      match coreBatchLoop write (i + 1) n with
      | .error e => .error e
      | .ok rest => .ok (i :: rest)

/-- Control-flow skeleton of the standardization batch loops
(standardize_noncry_dataset.py lines 66-73, standardize_non_cry.py lines
68-75, prepare_cry_dataset.py lines 56-63 via `process_file`): the per-file
conversion runs inside `try/except`, a failure is logged and the loop
continues with the next index.  The result records, for every index in order,
whether it succeeded (`none`) or the logged error. -/
def standardizeBatchLoop (convert : ℕ → Except String Unit) : ℕ → ℕ → List (ℕ × Option String)
  | _, 0 => []
  | i, n + 1 =>
    match convert i with
    | .error e => (i, some e) :: standardizeBatchLoop convert (i + 1) n
    | .ok _ => (i, none) :: standardizeBatchLoop convert (i + 1) n

/-- A write that fails on index 0 and succeeds elsewhere, used as the
concrete failing input for the batch-policy claims. -/
def failWrite0 : ℕ → Except String Unit :=
  fun i => if i = 0 then .error "write error" else .ok ()

theorem overlayFrom_eq (s p : List ℝ) :
    overlayFrom s p = List.zipWith (· + ·) s p ++ s.drop p.length := by
  induction s generalizing p with
  | nil => cases p <;> simp [overlayFrom]
  | cons a s ih =>
    cases p with
    | nil => simp [overlayFrom]
    | cons b q => simp [overlayFrom, ih]

theorem overlayAdd_eq (s p : List ℝ) (st : ℕ) :
    overlayAdd s p st =
      s.take st ++ (List.zipWith (· + ·) (s.drop st) p ++ s.drop (st + p.length)) := by
  rw [overlayAdd, overlayFrom_eq, List.drop_drop]

theorem overlayAdd_length (s p : List ℝ) (st : ℕ) :
    (overlayAdd s p st).length = s.length := by
  simp [overlayAdd_eq, List.length_zipWith]
  omega

theorem overlayAdd_take (s p : List ℝ) (st : ℕ) :
    (overlayAdd s p st).take st = s.take st := by
  rw [overlayAdd_eq, List.take_append_eq_append_take, List.take_take]
  rcases le_or_lt st s.length with h | h
  · simp [List.length_take, Nat.min_eq_left h, Nat.min_eq_left (le_refl st)]
  · have h1 : s.drop st = [] := List.drop_eq_nil_of_le h.le
    have h2 : s.drop (st + p.length) = [] := List.drop_eq_nil_of_le (by omega)
    simp [h1, h2]

theorem overlayAdd_drop (s p : List ℝ) (st : ℕ) :
    (overlayAdd s p st).drop (st + p.length) = s.drop (st + p.length) := by
  rcases le_or_lt st s.length with h | h
  · have hA : (s.take st).length = st := by simp [Nat.min_eq_left h]
    have hB : (List.zipWith (· + ·) (s.drop st) p).length = min (s.length - st) p.length := by
      simp
    have hdropA : (s.take st).drop (st + p.length) = [] :=
      List.drop_eq_nil_of_le (by rw [hA]; omega)
    rw [overlayAdd_eq, List.drop_append_eq_append_drop, hdropA, List.nil_append, hA,
      Nat.add_sub_cancel_left, List.drop_append_eq_append_drop, hB,
      List.drop_eq_nil_of_le (le_of_eq_of_le hB (by omega)), List.nil_append]
    rcases le_or_lt (st + p.length) s.length with h2 | h2
    · have hmin : p.length - min (s.length - st) p.length = 0 := by omega
      rw [hmin, List.drop_zero]
    · have hC : s.drop (st + p.length) = [] := List.drop_eq_nil_of_le (by omega)
      rw [hC, List.drop_nil]
  · have hs : s.take st = s := List.take_of_length_le h.le
    have h1 : s.drop st = [] := List.drop_eq_nil_of_le h.le
    have h2 : s.drop (st + p.length) = [] := List.drop_eq_nil_of_le (by omega)
    rw [overlayAdd_eq, h1, hs, h2]
    simp
    omega

theorem zipWith_take_left (f : ℝ → ℝ → ℝ) (l₁ l₂ : List ℝ) :
    List.zipWith f (l₁.take l₂.length) l₂ = List.zipWith f l₁ l₂ := by
  induction l₁ generalizing l₂ with
  | nil => simp
  | cons a l ih =>
    cases l₂ with
    | nil => simp
    | cons b m => simp [ih]

theorem overlayAdd_window (s p : List ℝ) (st : ℕ) (h : st + p.length ≤ s.length) :
    ((overlayAdd s p st).drop st).take p.length =
      List.zipWith (· + ·) ((s.drop st).take p.length) p := by
  have hA : (s.take st).length = st := by simp [Nat.min_eq_left (by omega : st ≤ s.length)]
  have hZ : (List.zipWith (· + ·) (s.drop st) p).length = p.length := by
    simp
    omega
  rw [overlayAdd_eq, List.drop_append_eq_append_drop, hA, Nat.sub_self,
    List.drop_eq_nil_of_le (le_of_eq hA), List.nil_append, List.drop_zero,
    List.take_append_eq_append_take, hZ, Nat.sub_self, List.take_zero,
    List.append_nil, List.take_of_length_le (le_of_eq hZ),
    ← zipWith_take_left (· + ·) (s.drop st) p]

theorem zipWith_sub_zipWith_add (a b : List ℝ) (h : b.length ≤ a.length) :
    List.zipWith (fun x y => x - y) (List.zipWith (· + ·) a b) a = b := by
  induction a generalizing b with
  | nil =>
    have hb : b.length = 0 := by simpa using h
    simp [List.length_eq_zero.mp hb]
  | cons x l ih =>
    cases b with
    | nil => simp
    | cons y m =>
      simp only [List.zipWith_cons_cons, List.cons.injEq]
      refine ⟨by ring, ih m (by simpa using h)⟩

theorem meanSq_map_mul (l : List ℝ) (c : ℝ) :
    meanSq (l.map (fun x => x * c)) = c ^ 2 * meanSq l := by
  unfold meanSq
  rw [List.map_map, List.length_map]
  have hm : (fun x => x ^ 2) ∘ (fun x => x * c) = fun x => x ^ 2 * c ^ 2 := by
    funext x
    simp [mul_pow]
  rw [hm, List.sum_map_mul_right]
  ring

theorem peakAbs_nil : peakAbs [] = 0 := rfl

theorem peakAbs_cons (a : ℝ) (l : List ℝ) : peakAbs (a :: l) = max |a| (peakAbs l) := rfl

theorem peakAbs_nonneg (l : List ℝ) : 0 ≤ peakAbs l := by
  induction l with
  | nil => simp [peakAbs_nil]
  | cons a l ih => rw [peakAbs_cons]; exact le_max_of_le_right ih

theorem peakAbs_map_mul (l : List ℝ) (c : ℝ) (hc : 0 ≤ c) :
    peakAbs (l.map (fun a => a * c)) = peakAbs l * c := by
  induction l with
  | nil => simp [peakAbs_nil]
  | cons a l ih =>
    rw [List.map_cons, peakAbs_cons, peakAbs_cons, ih, abs_mul, abs_of_nonneg hc,
      max_mul_of_nonneg _ _ hc]

theorem normalize_gen_length (x : List ℝ) (m : ℝ) : (normalize_gen x m).length = x.length := by
  unfold normalize_gen
  by_cases h : (1e-10 : ℝ) < peakAbs x <;> simp [h]

theorem normalize_sb_length (x : List ℝ) : (normalize_sb x).length = x.length := by
  unfold normalize_sb
  by_cases h : peakAbs x < (1e-9 : ℝ) <;> simp [h]

theorem add_event_eq_overlay (signal event : List ℝ) (st : ℕ) (snr : ℝ)
    (hL : overlapLen signal event st ≠ 0) :
    add_event_at_time signal event st snr =
      overlayAdd signal
        ((event.take (overlapLen signal event st)).map
          (fun x => x * gainScale (meanSq ((signal.drop st).take (overlapLen signal event st)))
            (meanSq (event.take (overlapLen signal event st))) snr)) st := by
  rw [add_event_at_time]
  simp only [hL, if_false]

theorem overlayAdd_frame (s p : List ℝ) (st i : ℕ) (h : i < st ∨ st + p.length ≤ i) :
    (overlayAdd s p st)[i]? = s[i]? := by
  rcases h with h | h
  · have h1 := congrArg (fun l => l[i]?) (overlayAdd_take s p st)
    simpa [List.getElem?_take, h] using h1
  · have h1 := congrArg (fun l => l[i - (st + p.length)]?) (overlayAdd_drop s p st)
    simp only [List.getElem?_drop] at h1
    rwa [Nat.add_sub_cancel' h] at h1

/-- C10: calling the compositor with an onset index at or beyond the end of
the mixture buffer is a total, silent no-op: no error is possible and the
mixture buffer is returned with every sample unchanged. -/
theorem c10_onset_beyond_end_noop (signal event : List ℝ) (start_idx : ℕ) (snr_db : ℝ)
    (h : signal.length ≤ start_idx) :
    add_event_at_time signal event start_idx snr_db = signal := by
  have hL : overlapLen signal event start_idx = 0 := by
    unfold overlapLen
    omega
  simp [add_event_at_time, hL]

/-- Witness for C10 at a concrete input. -/
theorem c10_onset_beyond_end_noop_witness :
    add_event_at_time [(1 : ℝ), 2] [3] 5 10 = [(1 : ℝ), 2] :=
  c10_onset_beyond_end_noop [(1 : ℝ), 2] [3] 5 10 (by simp)

/-- C7: the compositor never changes the length of the mixture buffer, and
every sample outside the overlap window
`[start_idx, start_idx + overlapLen)` keeps exactly its previous value. -/
theorem c7_frame_effect (signal event : List ℝ) (start_idx : ℕ) (snr_db : ℝ) :
    (add_event_at_time signal event start_idx snr_db).length = signal.length ∧
    ∀ i : ℕ, (i < start_idx ∨ start_idx + overlapLen signal event start_idx ≤ i) →
      (add_event_at_time signal event start_idx snr_db)[i]? = signal[i]? := by
  by_cases hL : overlapLen signal event start_idx = 0
  · constructor
    · simp [add_event_at_time, hL]
    · intro i _
      simp [add_event_at_time, hL]
  · have hLe : overlapLen signal event start_idx ≤ event.length := by
      unfold overlapLen
      omega
    rw [add_event_eq_overlay signal event start_idx snr_db hL]
    have hplen : ((event.take (overlapLen signal event start_idx)).map
        (fun x => x * gainScale
          (meanSq ((signal.drop start_idx).take (overlapLen signal event start_idx)))
          (meanSq (event.take (overlapLen signal event start_idx))) snr_db)).length
        = overlapLen signal event start_idx := by
      simp [Nat.min_eq_left hLe]
    refine ⟨overlayAdd_length _ _ _, fun i hi => overlayAdd_frame _ _ _ _ ?_⟩
    rw [hplen]
    exact hi

/-- Witness for C7 at a concrete input. -/
theorem c7_frame_effect_witness :
    (add_event_at_time [(1 : ℝ), 2, 3] [5] 1 4).length = [(1 : ℝ), 2, 3].length ∧
    (add_event_at_time [(1 : ℝ), 2, 3] [5] 1 4)[0]? = [(1 : ℝ), 2, 3][0]? :=
  ⟨(c7_frame_effect [(1 : ℝ), 2, 3] [5] 1 4).1,
   (c7_frame_effect [(1 : ℝ), 2, 3] [5] 1 4).2 0 (Or.inl (by norm_num))⟩

/-- C2: the gain applied by the compositor is
`sqrt(signal_power / event_power) * 10 ^ (snr_db / 20)` when both mean-square
powers exceed `1e-10`, and exactly 1 when either power is at or below that
threshold; and for a non-empty overlap the compositor adds the event prefix
scaled by precisely this gain. -/
theorem c2_gain_formula (signal event : List ℝ) (start_idx : ℕ) (sp ep snr_db : ℝ) :
    (1e-10 < ep → 1e-10 < sp →
      gainScale sp ep snr_db = Real.sqrt (sp / ep) * (10 : ℝ) ^ (snr_db / 20)) ∧
    ((ep ≤ 1e-10 ∨ sp ≤ 1e-10) → gainScale sp ep snr_db = 1) ∧
    (overlapLen signal event start_idx ≠ 0 →
      add_event_at_time signal event start_idx snr_db =
        overlayAdd signal
          ((event.take (overlapLen signal event start_idx)).map
            (fun x => x * gainScale
              (meanSq ((signal.drop start_idx).take (overlapLen signal event start_idx)))
              (meanSq (event.take (overlapLen signal event start_idx))) snr_db))
          start_idx) := by
  refine ⟨fun h1 h2 => ?_, fun h => ?_, fun hL => add_event_eq_overlay _ _ _ _ hL⟩
  · rw [gainScale, if_pos ⟨h1, h2⟩]
  · rw [gainScale, if_neg]
    push_neg
    intro hep
    rcases h with h | h
    · exact absurd hep (not_lt.mpr h)
    · exact h

/-- Witness for C2 at concrete inputs for each branch. -/
theorem c2_gain_formula_witness :
    gainScale 1 1 0 = Real.sqrt (1 / 1) * (10 : ℝ) ^ ((0 : ℝ) / 20) ∧
    gainScale 1 0 0 = 1 ∧
    add_event_at_time [(1 : ℝ), 1] [1] 0 0 =
      overlayAdd [(1 : ℝ), 1]
        (([(1 : ℝ)].take (overlapLen [(1 : ℝ), 1] [1] 0)).map
          (fun x => x * gainScale
            (meanSq (([(1 : ℝ), 1].drop 0).take (overlapLen [(1 : ℝ), 1] [1] 0)))
            (meanSq ([(1 : ℝ)].take (overlapLen [(1 : ℝ), 1] [1] 0))) 0)) 0 :=
  ⟨(c2_gain_formula [] [] 0 1 1 0).1 (by norm_num) (by norm_num),
   (c2_gain_formula [] [] 0 1 0 0).2.1 (Or.inl (by norm_num)),
   (c2_gain_formula [(1 : ℝ), 1] [1] 0 0 0 0).2.2 (by simp [overlapLen])⟩

/-- Counterexample to C1: an event of length 3 placed at onset index 2 into a
buffer of length 4 does not fit entirely, yet the compositor writes its
2-sample prefix into the buffer (the result differs from the input), so the
event is truncated rather than skipped. -/
theorem c1_counterexample :
    [(0 : ℝ), 0, 0, 0].length < 2 + [(1 : ℝ), 1, 1].length ∧
    add_event_at_time [(0 : ℝ), 0, 0, 0] [1, 1, 1] 2 10 ≠ [(0 : ℝ), 0, 0, 0] := by
  constructor
  · simp
  · intro heq
    have hL : overlapLen [(0 : ℝ), 0, 0, 0] [1, 1, 1] 2 = 2 := by
      simp [overlapLen]
    rw [add_event_eq_overlay _ _ _ _ (by rw [hL]; norm_num), hL] at heq
    have hsp : meanSq (([(0 : ℝ), 0, 0, 0].drop 2).take 2) = 0 := by
      norm_num [meanSq]
    have hep : meanSq ([(1 : ℝ), 1, 1].take 2) = 1 := by
      norm_num [meanSq]
    rw [hsp, hep] at heq
    rw [show gainScale 0 1 10 = 1 from by rw [gainScale, if_neg]; norm_num] at heq
    norm_num [overlayAdd, overlayFrom] at heq

/-- Amended C1: an event that does not fit entirely is truncated to the
samples remaining after the onset — placing the event equals placing its
prefix of length `signal.length - start_idx` — and only an empty overlap
(onset at or past the end) leaves the buffer untouched. -/
theorem c1_truncation (signal event : List ℝ) (start_idx : ℕ) (snr_db : ℝ) :
    add_event_at_time signal event start_idx snr_db =
      add_event_at_time signal (event.take (signal.length - start_idx)) start_idx snr_db ∧
    (signal.length ≤ start_idx → add_event_at_time signal event start_idx snr_db = signal) := by
  constructor
  · have hL : overlapLen signal (event.take (signal.length - start_idx)) start_idx
        = overlapLen signal event start_idx := by
      unfold overlapLen
      simp only [List.length_take]
      omega
    have htt : (event.take (signal.length - start_idx)).take
          (overlapLen signal event start_idx)
        = event.take (overlapLen signal event start_idx) := by
      rw [List.take_take]
      congr 1
      unfold overlapLen
      omega
    rw [add_event_at_time, add_event_at_time, hL, htt]
  · intro h
    have hL0 : overlapLen signal event start_idx = 0 := by
      unfold overlapLen
      omega
    simp [add_event_at_time, hL0]

/-- Witness for the amended C1 at a concrete input. -/
theorem c1_truncation_witness :
    add_event_at_time [(1 : ℝ)] [2] 3 5 =
      add_event_at_time [(1 : ℝ)] ([(2 : ℝ)].take ([(1 : ℝ)].length - 3)) 3 5 ∧
    add_event_at_time [(1 : ℝ)] [2] 3 5 = [(1 : ℝ)] :=
  ⟨(c1_truncation [(1 : ℝ)] [2] 3 5).1, (c1_truncation [(1 : ℝ)] [2] 3 5).2 (by simp)⟩

theorem peakAbs_rescale (x : List ℝ) (c : ℝ) (hc : 0 ≤ c) (hp : 0 < peakAbs x) :
    peakAbs (x.map (fun a => a / peakAbs x * c)) = c := by
  have hfn : (fun a : ℝ => a / peakAbs x * c) = (fun a : ℝ => a * (c / peakAbs x)) := by
    funext a
    ring
  rw [hfn, peakAbs_map_mul x _ (by positivity), mul_comm, div_mul_cancel₀ _ hp.ne']

theorem generate_mixture_eq (d : ℝ) (k : Option ℕ) (g : Rng) :
    ∃ m h, generate_mixture d k g = (normalize_gen m 0.9, h) := by
  rcases hbg : gen_background d g with ⟨mix, g1⟩
  cases k with
  | some n =>
    rcases hev : eventsLoop d n (mix, g1) with ⟨m2, g3⟩
    exact ⟨m2, g3, by simp [generate_mixture, hbg, hev]⟩
  | none =>
    rcases hri : g1.randint 1 5 with ⟨kk, g2⟩
    rcases hev : eventsLoop d kk.toNat (mix, g2) with ⟨m2, g3⟩
    exact ⟨m2, g3, by simp [generate_mixture, hbg, hri, hev]⟩

/-- Counterexample to C3: for the soundbank `normalize`, a buffer whose peak
is exactly at the epsilon threshold `1e-9` is rescaled (to peak 0.9), not
returned unchanged, because the code tests `m < 1e-9` strictly. -/
theorem c3_counterexample :
    peakAbs [(1e-9 : ℝ)] ≤ 1e-9 ∧ normalize_sb [(1e-9 : ℝ)] ≠ [(1e-9 : ℝ)] := by
  have hpk : peakAbs [(1e-9 : ℝ)] = 1e-9 := by
    norm_num [peakAbs]
  refine ⟨le_of_eq hpk, fun heq => ?_⟩
  simp only [normalize_sb, hpk] at heq
  rw [if_neg (by norm_num)] at heq
  norm_num at heq

/-- Amended C3: the generator-script `normalize` returns peak exactly 0.9
when the input peak exceeds its threshold `1e-10` and returns the buffer
unchanged at or below it; the soundbank `normalize` returns the buffer
unchanged strictly below its threshold `1e-9` and rescales to peak 0.9 at or
above it; consequently every orchestrator output has peak at most 0.9. -/
theorem c3_normalize_peak (x : List ℝ) (d : ℝ) (k : Option ℕ) (g : Rng) :
    (1e-10 < peakAbs x → peakAbs (normalize_gen x 0.9) = 0.9) ∧
    (peakAbs x ≤ 1e-10 → normalize_gen x 0.9 = x) ∧
    (1e-9 ≤ peakAbs x → peakAbs (normalize_sb x) = 0.9) ∧
    (peakAbs x < 1e-9 → normalize_sb x = x) ∧
    peakAbs (generate_mixture d k g).1 ≤ 0.9 := by
  refine ⟨fun h => ?_, fun h => ?_, fun h => ?_, fun h => ?_, ?_⟩
  · simp only [normalize_gen, if_pos h]
    exact peakAbs_rescale x 0.9 (by norm_num) (lt_trans (by norm_num) h)
  · simp only [normalize_gen, if_neg (not_lt.mpr h)]
  · simp only [normalize_sb, if_neg (not_lt.mpr h)]
    exact peakAbs_rescale x 0.9 (by norm_num) (lt_of_lt_of_le (by norm_num) h)
  · simp only [normalize_sb, if_pos h]
  · obtain ⟨m, h3, hm⟩ := generate_mixture_eq d k g
    rw [hm]
    by_cases hc : (1e-10 : ℝ) < peakAbs m
    · simp only [normalize_gen, if_pos hc]
      rw [peakAbs_rescale m 0.9 (by norm_num) (lt_trans (by norm_num) hc)]
    · simp only [normalize_gen, if_neg hc]
      push_neg at hc
      calc peakAbs m ≤ 1e-10 := hc
        _ ≤ 0.9 := by norm_num

/-- Witness for the amended C3 at concrete inputs. -/
theorem c3_normalize_peak_witness :
    peakAbs (normalize_gen [(1 : ℝ)] 0.9) = 0.9 ∧
    normalize_gen ([] : List ℝ) 0.9 = [] ∧
    normalize_sb [(1e-10 : ℝ)] = [(1e-10 : ℝ)] ∧
    peakAbs (generate_mixture 0 (some 0) ⟨fun _ => 0, 0⟩).1 ≤ 0.9 :=
  ⟨(c3_normalize_peak [(1 : ℝ)] 0 none ⟨fun _ => 0, 0⟩).1 (by norm_num [peakAbs]),
   (c3_normalize_peak ([] : List ℝ) 0 none ⟨fun _ => 0, 0⟩).2.1 (by norm_num [peakAbs]),
   (c3_normalize_peak [(1e-10 : ℝ)] 0 none ⟨fun _ => 0, 0⟩).2.2.2.1
     (by norm_num [peakAbs, abs_of_nonneg]),
   (c3_normalize_peak ([] : List ℝ) 0 (some 0) ⟨fun _ => 0, 0⟩).2.2.2.2⟩

theorem gen_background_length (d : ℝ) (g : Rng) :
    (gen_background d g).1.length = nSamples d := by
  simp only [gen_background, Rng.next, Rng.nextn, List.length_zipWith, List.length_map,
    List.length_range, min_self]

theorem gen_beep_length (d : ℝ) (g : Rng) :
    (gen_beep d g).1.length = nSamples d := by
  simp only [gen_beep, Rng.next, List.length_map, List.length_range]

theorem gen_whoosh_length (d : ℝ) (g : Rng) :
    (gen_whoosh d g).1.length = nSamples d := by
  simp only [gen_whoosh, Rng.next, Rng.nextn, List.length_zipWith, List.length_cons,
    List.length_map, List.length_range, List.length_drop]
  omega

theorem gen_knock_length (d : ℝ) (g : Rng) :
    (gen_knock d g).1.length = nSamples d := by
  simp only [gen_knock, Rng.next, List.length_map, List.length_range]

theorem gen_click_length (g : Rng) :
    (gen_click g).1.length = clickLen := by
  simp only [gen_click, Rng.nextn, List.length_zipWith, List.length_map,
    List.length_range, min_self]

theorem sb_gen_beep_length (d f : ℝ) :
    (sb_gen_beep d f).length = nSamples d := by
  simp only [sb_gen_beep, normalize_sb_length, List.length_map, List.length_range]

theorem sb_gen_chime_length (d : ℝ) :
    (sb_gen_chime d).length = nSamples d := by
  simp only [sb_gen_chime, normalize_sb_length, List.length_map, List.length_range]

/-- Counterexample to C4: at duration `56007/160000` s the product
`SR * duration = 5600.7`, the generated background has `int(SR*d) = 5600`
samples, but `round(SR*d) = 5601`. -/
theorem c4_counterexample :
    (gen_background (56007 / 160000) ⟨fun _ => 0, 0⟩).1.length ≠
      (round ((SR : ℝ) * (56007 / 160000))).toNat := by
  have h1 : (gen_background (56007 / 160000 : ℝ) ⟨fun _ => 0, 0⟩).1.length
      = nSamples (56007 / 160000) := gen_background_length _ _
  have hprod : (SR : ℝ) * (56007 / 160000) = 56007 / 10 := by
    norm_num [SR]
  have h2 : nSamples (56007 / 160000 : ℝ) = 5600 := by
    rw [nSamples, hprod]
    norm_num [Int.floor_eq_iff]
    rfl
  have h3 : (round ((SR : ℝ) * (56007 / 160000))).toNat = 5601 := by
    rw [hprod, round_eq]
    norm_num [Int.floor_eq_iff]
    rfl
  rw [h1, h2, h3]
  norm_num

/-- Amended C4: every generated waveform buffer has length exactly
`int(duration * SR)` — the floor (truncation) of `duration * SR`, which
agrees with `round(duration * SR)` only when the fractional part is below
one half (in particular at the default 7.0 s, where the length is 112000). -/
theorem c4_generator_lengths (d f : ℝ) (g : Rng) :
    (gen_background d g).1.length = nSamples d ∧
    (gen_beep d g).1.length = nSamples d ∧
    (gen_whoosh d g).1.length = nSamples d ∧
    (gen_knock d g).1.length = nSamples d ∧
    (sb_gen_beep d f).length = nSamples d ∧
    (sb_gen_chime d).length = nSamples d :=
  ⟨gen_background_length d g, gen_beep_length d g, gen_whoosh_length d g,
   gen_knock_length d g, sb_gen_beep_length d f, sb_gen_chime_length d⟩

/-- Counterexample to C6: with target SNR 20 dB, background segment of power
1 and event of power 1 at full containment, the measured ratio of the event
contribution's mean-square power to the background's is exactly 100, while
`10 ^ (S/20) = 10`: the two differ by a factor of 10 (20 dB), far beyond any
small numerical tolerance. -/
theorem c6_counterexample :
    meanSq (List.zipWith (fun a b => a - b)
        (((add_event_at_time [(1 : ℝ), 1] [1] 0 20).drop 0).take 1)
        (([(1 : ℝ), 1].drop 0).take 1)) /
      meanSq (([(1 : ℝ), 1].drop 0).take 1) = 100 ∧
    (10 : ℝ) ^ ((20 : ℝ) / 20) = 10 ∧ (100 : ℝ) ≠ 10 := by
  have hL : overlapLen [(1 : ℝ), 1] [1] 0 = 1 := by
    simp [overlapLen]
  have hadd : add_event_at_time [(1 : ℝ), 1] [1] 0 20 = [11, 1] := by
    rw [add_event_eq_overlay _ _ _ _ (by rw [hL]; norm_num), hL]
    have hsp : meanSq (([(1 : ℝ), 1].drop 0).take 1) = 1 := by
      norm_num [meanSq]
    have hep : meanSq ([(1 : ℝ)].take 1) = 1 := by
      norm_num [meanSq]
    rw [hsp, hep]
    have hg : gainScale 1 1 20 = 10 := by
      rw [gainScale, if_pos (by norm_num)]
      rw [show ((20 : ℝ) / 20) = 1 by norm_num, Real.rpow_one]
      norm_num [Real.sqrt_one]
    rw [hg]
    norm_num [overlayAdd, overlayFrom]
  refine ⟨?_, by rw [show ((20 : ℝ) / 20) = 1 by norm_num, Real.rpow_one], by norm_num⟩
  rw [hadd]
  norm_num [meanSq]

/-- Amended C6: for an event placed with target SNR `S` dB at full
containment, with both mean-square powers above the `1e-10` threshold, the
ratio of the scaled event contribution's mean-square power to the background
segment's mean-square power over the overlap equals `10 ^ (S/10)` exactly
(i.e. the achieved SNR is `S` dB; `10 ^ (S/20)` is the amplitude ratio). -/
theorem c6_snr_power_ratio (signal event : List ℝ) (start_idx : ℕ) (snr_db : ℝ)
    (hfit : start_idx + event.length ≤ signal.length)
    (hep : 1e-10 < meanSq event)
    (hsp : 1e-10 < meanSq ((signal.drop start_idx).take event.length)) :
    meanSq (List.zipWith (fun a b => a - b)
        (((add_event_at_time signal event start_idx snr_db).drop start_idx).take event.length)
        ((signal.drop start_idx).take event.length)) /
      meanSq ((signal.drop start_idx).take event.length) =
    (10 : ℝ) ^ (snr_db / 10) := by
  have hev0 : event ≠ [] := by
    rintro rfl
    norm_num [meanSq] at hep
  have hlen0 : event.length ≠ 0 := fun h => hev0 (List.length_eq_zero.mp h)
  have hL : overlapLen signal event start_idx = event.length := by
    unfold overlapLen
    omega
  have hsp0 : (0 : ℝ) < meanSq ((signal.drop start_idx).take event.length) :=
    lt_trans (by norm_num) hsp
  have hep0 : (0 : ℝ) < meanSq event := lt_trans (by norm_num) hep
  set sp := meanSq ((signal.drop start_idx).take event.length) with hspdef
  set ep := meanSq event with hepdef
  have hscale : gainScale sp ep snr_db = Real.sqrt (sp / ep) * (10 : ℝ) ^ (snr_db / 20) := by
    rw [gainScale, if_pos ⟨hep, hsp⟩]
  rw [add_event_eq_overlay _ _ _ _ (by rw [hL]; exact hlen0), hL, List.take_length,
    ← hspdef, ← hepdef, hscale]
  set sc := Real.sqrt (sp / ep) * (10 : ℝ) ^ (snr_db / 20) with hscdef
  have hplen : (event.map (fun x => x * sc)).length = event.length := by
    simp
  have hwin := overlayAdd_window signal (event.map (fun x => x * sc)) start_idx
    (by rw [hplen]; exact hfit)
  rw [hplen] at hwin
  rw [hwin]
  have hAlen : ((signal.drop start_idx).take event.length).length = event.length := by
    simp
    omega
  rw [zipWith_sub_zipWith_add _ _ (by rw [hplen, hAlen])]
  rw [meanSq_map_mul, ← hepdef]
  have hsc2 : sc ^ 2 = sp / ep * (10 : ℝ) ^ (snr_db / 10) := by
    rw [hscdef, mul_pow, Real.sq_sqrt (div_nonneg hsp0.le hep0.le)]
    congr 1
    rw [sq, ← Real.rpow_add (by norm_num : (0 : ℝ) < 10)]
    congr 1
    ring
  rw [hsc2]
  field_simp

/-- Witness for the amended C6 at a concrete input. -/
theorem c6_snr_power_ratio_witness :
    meanSq (List.zipWith (fun a b => a - b)
        (((add_event_at_time [(1 : ℝ), 1] [1] 0 0).drop 0).take 1)
        (([(1 : ℝ), 1].drop 0).take 1)) /
      meanSq (([(1 : ℝ), 1].drop 0).take 1) =
    (10 : ℝ) ^ ((0 : ℝ) / 10) :=
  c6_snr_power_ratio [(1 : ℝ), 1] [1] 0 0 (by simp)
    (by norm_num [meanSq]) (by norm_num [meanSq])

/-- C8: in the orchestrator's event phase the maximum valid onset is
`duration - len(event)/SR`; the compositor is invoked (with a drawn onset and
SNR) only when this is strictly positive, the single event is omitted with
the mixture unchanged when it is at most 0, and the loop always continues
with the remaining events. -/
theorem eventStep_eq (d : ℝ) (mix : List ℝ) (g : Rng) :
    eventStep d (mix, g) =
      if 0 < d - ((drawEvent g).1.length : ℝ) / (SR : ℝ) then
        (add_event_at_time_s mix (drawEvent g).1
          ((d - ((drawEvent g).1.length : ℝ) / (SR : ℝ)) * (drawEvent g).2.next.1)
          (5 + 15 * (drawEvent g).2.next.2.next.1),
         (drawEvent g).2.next.2.next.2)
      else (mix, (drawEvent g).2) := by
  rcases hdraw : drawEvent g with ⟨e, g2⟩
  rcases hn : g2.next with ⟨u1, g3⟩
  rcases hn2 : g3.next with ⟨u2, g4⟩
  simp only [eventStep, hdraw, hn, hn2]

theorem c8_max_onset_skip (d : ℝ) (mix : List ℝ) (g : Rng) (n : ℕ) :
    (d - ((drawEvent g).1.length : ℝ) / (SR : ℝ) ≤ 0 →
      eventStep d (mix, g) = (mix, (drawEvent g).2)) ∧
    (0 < d - ((drawEvent g).1.length : ℝ) / (SR : ℝ) →
      eventStep d (mix, g) =
        (add_event_at_time_s mix (drawEvent g).1
          ((d - ((drawEvent g).1.length : ℝ) / (SR : ℝ)) * (drawEvent g).2.next.1)
          (5 + 15 * (drawEvent g).2.next.2.next.1),
         (drawEvent g).2.next.2.next.2)) ∧
    eventsLoop d (n + 1) (mix, g) = eventsLoop d n (eventStep d (mix, g)) := by
  refine ⟨fun h => ?_, fun h => ?_, rfl⟩
  · rw [eventStep_eq, if_neg (not_lt.mpr h)]
  · rw [eventStep_eq, if_pos h]

/-- Witness for C8 at a concrete input (duration 0: no event fits). -/
theorem c8_max_onset_skip_witness :
    eventStep 0 ([], ⟨fun _ => 0, 0⟩) = ([], (drawEvent ⟨fun _ => 0, 0⟩).2) ∧
    eventsLoop 0 1 ([], ⟨fun _ => 0, 0⟩) = eventsLoop 0 0 (eventStep 0 ([], ⟨fun _ => 0, 0⟩)) :=
  ⟨(c8_max_onset_skip 0 [] ⟨fun _ => 0, 0⟩ 0).1 (by
      have hnn : (0 : ℝ) ≤ ((drawEvent ⟨fun _ => 0, 0⟩).1.length : ℝ) / (SR : ℝ) := by
        positivity
      linarith),
   (c8_max_onset_skip 0 [] ⟨fun _ => 0, 0⟩ 0).2.2⟩

/-- C5: the batch driver is a pure function of the seeded random stream and
the parameters, so two runs with an identical seed, sample count, duration
and event-count bounds produce identical sequences of output buffers. -/
theorem c5_batch_determinism (g1 g2 : Rng) (num1 num2 : ℕ) (dur1 dur2 : ℝ)
    (minE1 minE2 maxE1 maxE2 : ℕ)
    (hg : g1 = g2) (hnum : num1 = num2) (hdur : dur1 = dur2)
    (hmin : minE1 = minE2) (hmax : maxE1 = maxE2) :
    mainOutputs dur1 minE1 maxE1 num1 g1 = mainOutputs dur2 minE2 maxE2 num2 g2 := by
  rw [hg, hnum, hdur, hmin, hmax]

/-- Witness for C5 at a concrete seed and parameters. -/
theorem c5_batch_determinism_witness :
    mainOutputs 7 1 4 2 ⟨fun _ => 0, 0⟩ = mainOutputs 7 1 4 2 ⟨fun _ => 0, 0⟩ :=
  c5_batch_determinism ⟨fun _ => 0, 0⟩ ⟨fun _ => 0, 0⟩ 2 2 7 7 1 1 4 4 rfl rfl rfl rfl rfl

/-- Counterexample to C9: with a write that fails at index 0, the core batch
driver's loop (no try/except) aborts with the error — index 1 is never
reached — while the standardization loop (try/except) logs the failure and
still processes index 1. -/
theorem c9_counterexample :
    coreBatchLoop failWrite0 0 2 = .error "write error" ∧
    standardizeBatchLoop failWrite0 0 2 = [(0, some "write error"), (1, none)] := by
  constructor <;> rfl

/-- Amended C9: the skip-and-continue policy holds for the standardization
scripts (every index is processed no matter which conversions fail), but not
for the core batch driver, whose loop propagates the first write error and
aborts the remainder of the batch. -/
theorem c9_batch_policies (convert : ℕ → Except String Unit) (i n : ℕ) :
    (standardizeBatchLoop convert i n).length = n ∧
    (∀ e, convert i = .error e → coreBatchLoop convert i (n + 1) = .error e) := by
  constructor
  · induction n generalizing i with
    | zero => rfl
    | succ m ih =>
      cases hc : convert i with
      | error e => simp [standardizeBatchLoop, hc, ih]
      | ok u => simp [standardizeBatchLoop, hc, ih]
  · intro e he
    simp [coreBatchLoop, he]

/-- Witness for the amended C9 at a concrete failing write. -/
theorem c9_batch_policies_witness :
    (standardizeBatchLoop failWrite0 0 2).length = 2 ∧
    coreBatchLoop failWrite0 0 2 = .error "write error" :=
  ⟨(c9_batch_policies failWrite0 0 2).1,
   (c9_batch_policies failWrite0 0 1).2 "write error" rfl⟩
